import Mathlib

/-!
Verification of the checker-discovery core of scan-build (analyzer/clang.py).

The development shallowly embeds the Python module analyzer/clang.py:

  * get_arguments (command reconstruction, lines 29-67), including the
    POSIX shlex.split tokenizer and the strip_quotes helper;
  * _get_active_checkers (active-checker probe, lines 71-92);
  * get_checkers (catalog builder, lines 96-168) with its nested
    parse_checkers help-text parser and is_active matcher.

Child processes are modelled by the collaborator interface of the spec:
a runner function mapping (optional working directory, argv) to a
ProcessResult of output lines and an exit status.  Output lines are
arbitrary strings; in the program they are the lines of the combined
stdout/stderr stream of the child, each keeping its trailing newline
character (Python file iteration), with the final line possibly lacking
one.
-/

deriving instance DecidableEq for Except

namespace ScanBuild

/-- Result of running a child process: the lines of its combined
stdout/stderr stream, and its exit status. -/
structure ProcessResult where
  outputLines : List String
  returncode : Int
deriving DecidableEq, Repr

/-- The failure modes of the embedded fragment.  The Python code raises
plain Exception / ValueError values; the constructors here name the
distinct raise sites.  emptyOutput is the raise in lastline (line 44),
executionFailed the raise at line 67, compilerReportedError the raise at
line 64, catalogUnavailable the raise at line 168 (message: Could not
query Clang for available checkers.), and the last two are the
ValueError exceptions shlex.split can raise. -/
inductive PyErr where
  | emptyOutput
  | executionFailed (line : String)
  | compilerReportedError (line : String)
  | catalogUnavailable
  | noClosingQuotation
  | noEscapedChar
deriving DecidableEq, Repr

/-- Anchored match of a literal pattern at the start of a string:
re.match of a regex with no metacharacters succeeds exactly when the
pattern is an initial segment of the subject. -/
def pyStartsWith (s pat : String) : Bool :=
  pat.data.isPrefixOf s.data

/-- Python str.isspace characters relevant to ASCII text: the class
matched by the regex token backslash-s. -/
def isPySpace (c : Char) : Bool :=
  c = ' ' || c = '\t' || c = '\n' || c = '\r' || c = '\x0b' || c = '\x0c'

/-- Right strip on a character list: Python str.rstrip with no argument
(removes trailing whitespace). -/
def pyRstripL (l : List Char) : List Char :=
  (l.reverse.dropWhile isPySpace).reverse

/-- Python str.rstrip on strings. -/
def pyRstrip (s : String) : String :=
  ⟨pyRstripL s.data⟩

/-- Python str.strip on strings (removes leading and trailing
whitespace). -/
def pyStrip (s : String) : String :=
  ⟨pyRstripL (s.data.dropWhile isPySpace)⟩

/-! ## The shlex.split tokenizer

get_arguments calls shlex.split on the last output line.  shlex.split
runs the shlex class in POSIX mode with whitespace_split set and
comments disabled: whitespace separates tokens, single and double
quotes group, backslash escapes outside quotes and (specially) inside
double quotes, an unterminated quote raises ValueError(No closing
quotation) and a trailing escape raises ValueError(No escaped
character).  The state machine below transcribes shlex.read_token for
exactly that configuration. -/

/-- Tokenizer whitespace set of shlex: space, tab, carriage return,
newline. -/
def isShWhitespace (c : Char) : Bool :=
  c = ' ' || c = '\t' || c = '\r' || c = '\n'

/-- Quote characters recognised by shlex. -/
def isShQuote (c : Char) : Bool :=
  c = '\'' || c = '"'

/-- States of the shlex reader: between tokens, inside a plain word,
inside a quoted section (carrying the quote character), or just after a
backslash (carrying the state to return to). -/
inductive ShState where
  | ws
  | word
  | quote (q : Char)
  | esc (ret : ShState)
deriving DecidableEq, Repr

/-- One pass of the shlex reader over the remaining characters.
Arguments: remaining input, current state, characters of the token
being built, whether the current token saw a quote (a quoted token is
emitted even when empty). -/
def shlexRun : List Char → ShState → List Char → Bool → Except PyErr (List String)
  | [], .ws, _, _ => .ok []
  | [], .word, tok, quoted =>
    if tok.isEmpty && !quoted then .ok [] else .ok [⟨tok⟩]
  | [], .quote _, _, _ => .error .noClosingQuotation
  | [], .esc _, _, _ => .error .noEscapedChar
  | c :: cs, .ws, tok, quoted =>
    if isShWhitespace c then shlexRun cs .ws tok quoted
    else if c = '\\' then shlexRun cs (.esc .word) tok quoted
    else if isShQuote c then shlexRun cs (.quote c) tok true
    else shlexRun cs .word (tok ++ [c]) quoted
  | c :: cs, .word, tok, quoted =>
    if isShWhitespace c then
      if tok.isEmpty && !quoted then shlexRun cs .ws [] false
      else (shlexRun cs .ws [] false).map (fun ts => (⟨tok⟩ : String) :: ts)
    else if isShQuote c then shlexRun cs (.quote c) tok true
    else if c = '\\' then shlexRun cs (.esc .word) tok quoted
    else shlexRun cs .word (tok ++ [c]) quoted
  | c :: cs, .quote q, tok, quoted =>
    if c = q then shlexRun cs .word tok quoted
    else if q = '"' && c = '\\' then shlexRun cs (.esc (.quote q)) tok quoted
    else shlexRun cs (.quote q) (tok ++ [c]) quoted
  | c :: cs, .esc ret, tok, quoted =>
    match ret with
    | .quote q =>
      if c ≠ '\\' && c ≠ q then shlexRun cs (.quote q) (tok ++ ['\\', c]) quoted
      else shlexRun cs (.quote q) (tok ++ [c]) quoted
    | r => shlexRun cs r (tok ++ [c]) quoted

/-- shlex.split in POSIX mode with whitespace splitting, as used at
line 65 of clang.py. -/
def shlexSplit (s : String) : Except PyErr (List String) :=
  shlexRun s.data .ws [] false

/-! ## strip_quotes (clang.py lines 47-49)

strip_quotes applies the Python regex
caret quote (group of non-quote characters) quote dollar
to the token via re.match and returns the group on a match, otherwise
the token unchanged.  In Python, the dollar anchor matches at the end
of the string and also just before a newline that is the last
character. -/

/-- Core of the strip_quotes regex on character lists: some interior
when the regex matches (the token is a double quote, then interior
characters none of which is a double quote, then a double quote, then
the dollar anchor: end of string or a final newline). -/
def stripQuotesCore : List Char → Option (List Char)
  | [] => none
  | c :: rest =>
    if c = '"' ∧ rest.dropWhile (fun x => x ≠ '"') ≠ [] ∧
        ((rest.dropWhile (fun x => x ≠ '"')).drop 1 = [] ∨
          (rest.dropWhile (fun x => x ≠ '"')).drop 1 = ['\n']) then
      some (rest.takeWhile (fun x => x ≠ '"'))
    else none

/-- strip_quotes from clang.py lines 47-49. -/
def strip_quotes (s : String) : String :=
  match stripQuotesCore s.data with
  | some mid => ⟨mid⟩
  | none => s

/-! ## get_arguments (clang.py lines 29-67) -/

/-- Python list.insert semantics (the index is clamped to the length,
which List.take and List.drop already do). -/
def pyListInsert (i : Nat) (x : α) (l : List α) : List α :=
  l.take i ++ x :: l.drop i

/-- Lines 51-52 of clang.py: cmd is a copy of command (command[:]) and
the flag -### is inserted at index 1 of the copy.  The first component
is the argv the child process is executed with; the second is the
caller-visible value of command after the call: because line 51 copies
the list, the insert at line 52 does not reach the caller. -/
def buildExecArgv (command : List String) : List String × List String :=
  (pyListInsert 1 "-###" command, command)

/-- Processing of the child-process result inside get_arguments:
lastline (raises on an empty stream), then the exit-status check, then
the error-marker check, then tokenization and quote stripping. -/
def get_arguments_result (res : ProcessResult) : Except PyErr (List String) :=
  match res.outputLines.getLast? with
  | none => .error .emptyOutput
  | some line =>
    if res.returncode = 0 then
      if pyStartsWith line "clang: error:" then .error (.compilerReportedError line)
      else (shlexSplit line).map (fun ts => ts.map strip_quotes)
    else .error (.executionFailed line)

/-- A runner abstracts the Process Runner collaborator: it maps an
optional working directory and an argv list to the result of executing
that child process. -/
def Runner : Type :=
  Option String → List String → ProcessResult

/-- get_arguments from clang.py lines 29-67: execute the command with
-### inserted after the executable name, in the given directory, and
process the captured output. -/
def get_arguments (runner : Runner) (cwd : String) (command : List String) :
    Except PyErr (List String) :=
  get_arguments_result (runner (some cwd) (buildExecArgv command).1)

/-! ## _get_active_checkers (clang.py lines 71-92) -/

/-- Extraction regex of the probe (line 79): re.match of
caret -analyzer-checker= (group of dot-star) dollar.
Dot matches any character except newline and the dollar anchor matches
at the end or just before a final newline, so a token matches exactly
when, after the literal marker, the remainder contains no newline apart
from an optional final one, which the group does not capture. -/
def analyzerCheckerArg (arg : String) : Option String :=
  if pyStartsWith arg "-analyzer-checker=" then
    let rest := arg.data.drop "-analyzer-checker=".data.length
    if '\n' ∈ rest then
      if rest.getLast? = some '\n' ∧ '\n' ∉ rest.dropLast then some ⟨rest.dropLast⟩
      else none
    else some ⟨rest⟩
  else none

/-- Load directive built at lines 83-86: functools.reduce appending
four tokens per plugin, in plugin order. -/
def loadFragments4 (plugins : List String) : List String :=
  plugins.foldl (fun acc x => acc ++ ["-Xclang", "-load", "-Xclang", x]) []

/-- The four input languages probed, in the order of line 92. -/
def probeLanguages : List String :=
  ["c", "c++", "objective-c", "objective-c++"]

/-- The synthetic analysis invocation built at line 78 for one
language. -/
def probeCmd (clang : String) (load : List String) (language : String) : List String :=
  [clang, "--analyze"] ++ load ++ ["-x", language, "-"]

/-- The nested checkers function (lines 76-81): reconstruct the
synthetic invocation in directory . and keep the captured group of
every token the extraction regex matches. -/
def checkersForLanguage (runner : Runner) (clang : String) (load : List String)
    (language : String) : Except PyErr (List String) :=
  (get_arguments runner "." (probeCmd clang load language)).map
    (fun args => args.filterMap analyzerCheckerArg)

/-- Sequential probing of a list of languages; the first failure aborts
the whole probe, later languages are not executed (the generator at
lines 88-92 is consumed in language order). -/
def probeAll (runner : Runner) (clang : String) (load : List String) :
    List String → Except PyErr (List (List String))
  | [] => .ok []
  | language :: rest => do
    let r ← checkersForLanguage runner clang load language
    let rs ← probeAll runner clang load rest
    pure (r :: rs)

/-- _get_active_checkers (lines 71-92).  The Python function returns a
set; it is modelled as the flattened list of per-language extraction
results, whose membership is the set membership (the only consumer,
is_active, and the claims about the probe only depend on
membership). -/
def _get_active_checkers (runner : Runner) (clang : String) (plugins : List String) :
    Except PyErr (List String) :=
  (probeAll runner clang (loadFragments4 plugins) probeLanguages).map List.flatten

/-! ## is_active (clang.py lines 139-148)

is_active tests re.match of the pattern caret, the active string a
itself, then a group of (escaped dot alternative dollar).  The active
string is interpolated into the pattern without escaping, so its
characters act as regex syntax: a dot in an active name matches any
character except newline.  The embedding below evaluates that pattern
for active strings built from ordinary characters and dots, the forms
that occur in checker names; activeSafe delimits this domain. -/

/-- Match of one interpolated pattern character against one subject
character: a dot matches anything but a newline, any other ordinary
character matches itself. -/
def patCharMatches (p c : Char) : Bool :=
  if p = '.' then c ≠ '\n' else p = c

/-- Match the interpolated active string against an initial segment of
the subject, returning the remainder on success. -/
def matchActivePat : List Char → List Char → Option (List Char)
  | [], cs => some cs
  | _ :: _, [] => none
  | p :: ps, c :: cs => if patCharMatches p c then matchActivePat ps cs else none

/-- Characters over which the embedding of is_active is faithful: regex
ordinary characters of checker names, plus the dot metacharacter. -/
def checkerChar (c : Char) : Bool :=
  c.isAlphanum || c = '.' || c = '-' || c = '_'

/-- An active string whose regex interpolation the embedding models
exactly. -/
def activeSafe (a : String) : Bool :=
  a.data.all checkerChar

/-- is_active (lines 139-148): the entry matches when some active
string, read as a regex, matches an initial segment of the entry
followed by a literal dot or the dollar anchor (end of string, or just
before a final newline). -/
def is_active (actives : List String) (entry : String) : Bool :=
  actives.any fun a =>
    match matchActivePat a.data entry.data with
    | some rest => rest.head? = some '.' || rest.isEmpty || rest = ['\n']
    | none => false

/-! ## parse_checkers (clang.py lines 108-137) -/

/-- Header scan (lines 121-123): consume lines up to and including the
first one that starts with CHECKERS: and return the rest; if no line
matches, the whole stream is consumed. -/
def dropThroughHeader : List String → List String
  | [] => []
  | line :: rest =>
    if pyStartsWith line "CHECKERS:" then rest else dropThroughHeader rest

/-- The regex at line 127, two whitespace characters then a
non-whitespace character, applied with re.match to the raw line. -/
def matchTwoWsNonWs (line : String) : Bool :=
  match line.data with
  | a :: b :: c :: _ => isPySpace a && isPySpace b && !isPySpace c
  | _ => false

/-- The regex at line 130, two whitespace characters then one or more
non-whitespace characters up to the dollar anchor, applied with
re.match to the right-stripped line: the stripped line is two
whitespace characters followed by a nonempty run of non-whitespace. -/
def matchBareName (line : String) : Bool :=
  match (pyRstrip line).data with
  | a :: b :: rest =>
    isPySpace a && isPySpace b && !rest.isEmpty && rest.all (fun c => !isPySpace c)
  | _ => false

/-- The entry regex at line 133 applied to the right-stripped line
(line 134): after two whitespace characters, the key group is the
maximal leading run of non-whitespace, then a maximal whitespace run is
skipped, and the value group is the rest up to a newline (the dot does
not match newlines). -/
def entryLineMatch (line : String) : Option (String × String) :=
  match (pyRstrip line).data with
  | a :: b :: rest =>
    if isPySpace a && isPySpace b then
      let key := rest.takeWhile (fun c => !isPySpace c)
      let after := (rest.dropWhile (fun c => !isPySpace c)).dropWhile isPySpace
      some (⟨key⟩, ⟨after.takeWhile (fun c => c ≠ '\n')⟩)
    else none
  | _ => none

/-- Entry loop of parse_checkers (lines 125-137), with the pending-name
register state.  When state is set and the line does not begin with two
whitespace characters and a non-whitespace character, the pending name
is emitted with the stripped line as description and state is cleared;
otherwise a bare-name line loads state, and any other line is matched
against the entry regex, emitting a pair on success and leaving state
untouched. -/
def parseEntries : List String → Option String → List (String × String)
  | [], _ => []
  | line :: rest, some st =>
    if !matchTwoWsNonWs line then
      (st, pyStrip line) :: parseEntries rest none
    else if matchBareName line then parseEntries rest (some (pyStrip line))
    else
      match entryLineMatch line with
      | some kv => kv :: parseEntries rest (some st)
      | none => parseEntries rest (some st)
  | line :: rest, none =>
    if matchBareName line then parseEntries rest (some (pyStrip line))
    else
      match entryLineMatch line with
      | some kv => kv :: parseEntries rest none
      | none => parseEntries rest none

/-- parse_checkers (lines 108-137) over a list of output lines. -/
def parse_checkers (stream : List String) : List (String × String) :=
  parseEntries (dropThroughHeader stream) none

/-! ## get_checkers (clang.py lines 96-168) -/

/-- Insertion into the model of a Python dict kept as an association
list in insertion order: a later assignment to an existing key replaces
the value in place, a new key is appended. -/
def pyDictInsert (m : List (String × β)) (k : String) (v : β) : List (String × β) :=
  if m.any (fun p => p.1 = k) then
    m.map (fun p => if p.1 = k then (k, v) else p)
  else m ++ [(k, v)]

/-- A Python dict built from a sequence of key-value pairs. -/
def pyDictOf (ps : List (String × β)) : List (String × β) :=
  ps.foldl (fun m kv => pyDictInsert m kv.1 kv.2) []

/-- The catalog type: checker name to (description, active by
default), as an insertion-ordered association list. -/
abbrev Catalog : Type :=
  List (String × (String × Bool))

/-- The dict comprehension at lines 160-162: parse the help stream and
mark every parsed name with its activation status. -/
def buildCatalogFromHelp (actives : List String) (stream : List String) : Catalog :=
  pyDictOf ((parse_checkers stream).map (fun kv => (kv.1, (kv.2, is_active actives kv.1))))

/-- Line 106: plugins = plugins if plugins else [], mapping an absent
or empty plugin list to the empty list. -/
def pluginsDefault : Option (List String) → List String
  | none => []
  | some ps => ps

/-- Load directive of the help-text invocation (line 152):
functools.reduce appending two tokens per plugin, in plugin order. -/
def loadFragments2 (plugins : List String) : List String :=
  plugins.foldl (fun acc x => acc ++ ["-load", x]) []

/-- The help-text invocation built at line 153. -/
def helpCmd (clang : String) (plugins : List String) : List String :=
  [clang, "-cc1"] ++ loadFragments2 plugins ++ ["-analyzer-checker-help"]

/-- Lines 160-168 after the help child ran: build the catalog and
return it when the child exited with status zero and the catalog is
nonempty, otherwise raise the catalog-unavailable error. -/
def get_checkers_post (actives : List String) (helpResult : ProcessResult) :
    Except PyErr Catalog :=
  let checkers := buildCatalogFromHelp actives helpResult.outputLines
  if helpResult.returncode = 0 ∧ checkers ≠ [] then .ok checkers
  else .error .catalogUnavailable

/-- get_checkers (lines 96-168): normalize the plugin list, compute the
active set by probing, run the help-text child directly (no working
directory, argv from helpCmd), and assemble the catalog. -/
def get_checkers (runner : Runner) (clang : String) (plugins? : Option (List String)) :
    Except PyErr Catalog := do
  let plugins := pluginsDefault plugins?
  let actives ← _get_active_checkers runner clang plugins
  get_checkers_post actives (runner none (helpCmd clang plugins))

/-! ## Spec-side definitions

The next definitions follow the words of the claims, not the code; each
is compared with the corresponding embedded definition by a theorem
below. -/

/-- A token fully wrapped in double quotes in the sense of claim C2:
it starts and ends with a double quote (so it has at least the two
quote characters) and its interior contains no double quote. -/
abbrev quoteWrapped (cs : List Char) : Prop :=
  cs.head? = some '"' ∧ cs.getLast? = some '"' ∧ 2 ≤ cs.length ∧ '"' ∉ (cs.drop 1).dropLast

/-- Per-token stripping rule in the words of claim C2: strip one layer
of enclosing double quotes when the token is fully wrapped in them,
pass every other token through unchanged. -/
def specStripClaim (t : String) : String :=
  if quoteWrapped t.data then ⟨(t.data.drop 1).dropLast⟩ else t

/-- Per-token stripping rule of the amended claim: set aside a single
trailing newline; when what remains is fully wrapped in double quotes,
return its interior (the set-aside newline is dropped as well), and
otherwise return the token unchanged. -/
def specStripAmended (t : String) : String :=
  let core := if t.data.getLast? = some '\n' then t.data.dropLast else t.data
  if quoteWrapped core then ⟨(core.drop 1).dropLast⟩ else t

/-- Per-language probe in the words of claim C7: build the invocation
compilerPath, --analyze, the four-token fragments in plugin order, then
-x, the language and -, reconstruct it in directory ., and extract the
captured values. -/
def specProbeLanguage (runner : Runner) (clang : String) (plugins : List String)
    (language : String) : Except PyErr (List String) :=
  (get_arguments runner "."
      ([clang, "--analyze"] ++ plugins.flatMap (fun x => ["-Xclang", "-load", "-Xclang", x]) ++
        ["-x", language, "-"])).map
    (fun toks => toks.filterMap analyzerCheckerArg)

/-- Sequential per-language probing in the words of claim C7. -/
def specProbeAll (runner : Runner) (clang : String) (plugins : List String) :
    List String → Except PyErr (List (List String))
  | [] => .ok []
  | language :: rest => do
    let r ← specProbeLanguage runner clang plugins language
    let rs ← specProbeAll runner clang plugins rest
    pure (r :: rs)

/-- The probe in the words of claim C7: the union over the four fixed
languages, in that order, of the per-language extractions. -/
def probeActiveSpec (runner : Runner) (clang : String) (plugins : List String) :
    Except PyErr (List String) :=
  (specProbeAll runner clang plugins ["c", "c++", "objective-c", "objective-c++"]).map
    List.flatten

/-- One well-formed help-text entry of claim C5: the inline form puts
the name and the description on one line, the split form puts the bare
name on one line and the description on the next. -/
inductive EntryForm where
  | inl (name description : String)
  | split (name description : String)
deriving DecidableEq, Repr

/-- Name of an entry. -/
def entryName : EntryForm → String
  | .inl n _ => n
  | .split n _ => n

/-- Description of an entry. -/
def entryDesc : EntryForm → String
  | .inl _ d => d
  | .split _ d => d

/-- Rendering of one entry into help-text lines, each newline
terminated: the name line begins with exactly two spaces; in the split
form the description line begins with three spaces, so it does not look
like an entry line. -/
def renderEntry : EntryForm → List String
  | .inl n d => ["  " ++ n ++ " " ++ d ++ "\n"]
  | .split n d => ["  " ++ n ++ "\n", "   " ++ d ++ "\n"]

/-- A well-formed checker name: nonempty without whitespace. -/
def wfName (n : String) : Bool :=
  !n.data.isEmpty && n.data.all (fun c => !isPySpace c)

/-- A well-formed description: nonempty, free of newlines, and neither
starting nor ending with whitespace. -/
def wfDesc (d : String) : Bool :=
  !d.data.isEmpty && d.data.all (fun c => c ≠ '\n') &&
    (match d.data.head? with
      | some c => !isPySpace c
      | none => false) &&
    (match d.data.getLast? with
      | some c => !isPySpace c
      | none => false)

/-- Well-formedness of one entry. -/
def wfEntry : EntryForm → Bool
  | .inl n d => wfName n && wfDesc d
  | .split n d => wfName n && wfDesc d

/-! ## Generic helper lemmas -/

theorem foldl_append_eq_flatMap (f : α → List β) :
    ∀ (l : List α) (acc : List β),
      l.foldl (fun acc x => acc ++ f x) acc = acc ++ l.flatMap f := by
  intro l
  induction l with
  | nil => intro acc; simp
  | cons x xs ih => intro acc; simp [ih, List.append_assoc]

theorem takeWhile_append_of_all (p : α → Bool) {xs : List α} (ys : List α)
    (h : ∀ x ∈ xs, p x = true) : (xs ++ ys).takeWhile p = xs ++ ys.takeWhile p := by
  induction xs with
  | nil => simp
  | cons a l ih =>
    have ha : p a = true := h a (by simp)
    have ih' := ih (fun x hx => h x (by simp [hx]))
    simp [List.takeWhile_cons, ha, ih']

theorem dropWhile_append_of_all (p : α → Bool) {xs : List α} (ys : List α)
    (h : ∀ x ∈ xs, p x = true) : (xs ++ ys).dropWhile p = ys.dropWhile p := by
  induction xs with
  | nil => simp
  | cons a l ih =>
    have ha : p a = true := h a (by simp)
    have ih' := ih (fun x hx => h x (by simp [hx]))
    simp [List.dropWhile_cons, ha, ih']

theorem loadFragments2_eq_flatMap (ps : List String) :
    loadFragments2 ps = ps.flatMap (fun x => ["-load", x]) := by
  simpa using foldl_append_eq_flatMap (fun x => (["-load", x] : List String)) ps []

theorem loadFragments4_eq_flatMap (ps : List String) :
    loadFragments4 ps = ps.flatMap (fun x => ["-Xclang", "-load", "-Xclang", x]) := by
  simpa using
    foldl_append_eq_flatMap (fun x => (["-Xclang", "-load", "-Xclang", x] : List String)) ps []

theorem dropWhile_head_false (p : α → Bool) :
    ∀ (l : List α) {d : α} {s : List α}, l.dropWhile p = d :: s → p d = false := by
  intro l
  induction l with
  | nil => intro d s h; cases h
  | cons a t ih =>
    intro d s h
    by_cases ha : p a = true
    · rw [List.dropWhile_cons, if_pos ha] at h
      exact ih h
    · rw [List.dropWhile_cons, if_neg ha] at h
      cases h
      simpa using ha

theorem not_quoteWrapped_of_no_quote {l : List Char} (h : '"' ∉ l) :
    ¬ quoteWrapped ('"' :: l) := by
  rintro ⟨-, hlast, hlen, -⟩
  rcases l with _ | ⟨x, xs⟩
  · simp at hlen
  · rw [List.getLast?_cons_cons] at hlast
    exact h (List.mem_of_mem_getLast? hlast)

theorem stripQuotesCore_cons (c : Char) (rest : List Char) :
    stripQuotesCore (c :: rest) =
      if c = '"' ∧ rest.dropWhile (fun x => x ≠ '"') ≠ [] ∧
          ((rest.dropWhile (fun x => x ≠ '"')).drop 1 = [] ∨
            (rest.dropWhile (fun x => x ≠ '"')).drop 1 = ['\n']) then
        some (rest.takeWhile (fun x => x ≠ '"'))
      else none :=
  rfl

theorem strip_quotes_data (cs : List Char) :
    strip_quotes ⟨cs⟩ =
      match stripQuotesCore cs with
      | some mid => (⟨mid⟩ : String)
      | none => ⟨cs⟩ :=
  rfl

theorem specStripAmended_data (cs : List Char) :
    specStripAmended ⟨cs⟩ =
      if quoteWrapped (if cs.getLast? = some '\n' then cs.dropLast else cs) then
        (⟨((if cs.getLast? = some '\n' then cs.dropLast else cs).drop 1).dropLast⟩ : String)
      else ⟨cs⟩ :=
  rfl

theorem strip_quotes_eq_specStripAmended (t : String) :
    strip_quotes t = specStripAmended t := by
  obtain ⟨cs⟩ := t
  rcases cs with _ | ⟨c, rest⟩
  · rfl
  · by_cases hc : c = '"'
    · subst hc
      rcases hdw : rest.dropWhile (fun x => x ≠ '"') with _ | ⟨d, suffix⟩
      · -- there is no closing quote anywhere in the tail
        have hnq : '"' ∉ rest := by
          intro hmem
          have := List.dropWhile_eq_nil_iff.mp hdw '"' hmem
          simp at this
        have hstrip : strip_quotes ⟨'"' :: rest⟩ = ⟨'"' :: rest⟩ := by
          rw [strip_quotes_data, stripQuotesCore_cons, if_neg (fun h => h.2.1 hdw)]
        rw [hstrip, specStripAmended_data]
        by_cases hln : ('"' :: rest).getLast? = some '\n'
        · rw [if_pos hln]
          rcases rest with _ | ⟨r, rs⟩
          · simp at hln
          · rw [List.dropLast_cons_of_ne_nil (by simp)]
            rw [if_neg (not_quoteWrapped_of_no_quote
              (fun hm => hnq (List.dropLast_subset _ hm)))]
        · rw [if_neg hln, if_neg (not_quoteWrapped_of_no_quote hnq)]
      · have hd : d = '"' := by
          have := dropWhile_head_false _ rest hdw
          simpa using this
        subst hd
        have hsplit : rest = rest.takeWhile (fun x => x ≠ '"') ++ '"' :: suffix := by
          conv_lhs => rw [← List.takeWhile_append_dropWhile (fun x => decide (x ≠ '"')) rest]
          rw [hdw]
        have hmidq : '"' ∉ rest.takeWhile (fun x => x ≠ '"') := by
          intro hm
          have := List.mem_takeWhile_imp hm
          simp at this
        have hne : rest.dropWhile (fun x => x ≠ '"') ≠ [] := by
          rw [hdw]
          simp
        have hdrop1 : (rest.dropWhile (fun x => x ≠ '"')).drop 1 = suffix := by
          rw [hdw]
          simp
        have hstrip : strip_quotes ⟨'"' :: rest⟩ =
            if suffix = [] ∨ suffix = ['\n'] then
              (⟨rest.takeWhile (fun x => x ≠ '"')⟩ : String)
            else ⟨'"' :: rest⟩ := by
          by_cases hs : suffix = [] ∨ suffix = ['\n']
          · rw [strip_quotes_data, stripQuotesCore_cons,
              if_pos ⟨rfl, hne, by rw [hdrop1]; exact hs⟩, if_pos hs]
          · rw [strip_quotes_data, stripQuotesCore_cons,
              if_neg (fun hcond => hs (by rw [← hdrop1]; exact hcond.2.2)), if_neg hs]
        obtain ⟨mid, hsplit, hmidq⟩ :
            ∃ mid, rest = mid ++ '"' :: suffix ∧ '"' ∉ mid :=
          ⟨_, hsplit, hmidq⟩
        have hall : ∀ x ∈ mid, (fun x => decide (x ≠ '"')) x = true := by
          intro x hx
          have hxq : x ≠ '"' := fun he => hmidq (he ▸ hx)
          simpa using hxq
        have htw : rest.takeWhile (fun x => x ≠ '"') = mid := by
          rw [hsplit, takeWhile_append_of_all _ _ hall]
          simp [List.takeWhile_cons]
        rw [hstrip, htw, hsplit, specStripAmended_data]
        by_cases hs : suffix = [] ∨ suffix = ['\n']
        · rw [if_pos hs]
          rcases hs with hs | hs
          · subst hs
            have hformA : ('"' :: (mid ++ ['"'])).getLast? = some '"' := by
              rw [show ('"' :: (mid ++ ['"'])) = ('"' :: mid) ++ ['"'] by simp,
                List.getLast?_concat]
            have houter : ¬ ('"' :: (mid ++ ['"'])).getLast? = some '\n' := by
              rw [hformA]
              simp
            have hin : (('"' :: (mid ++ ['"'])).drop 1).dropLast = mid := by
              rw [show (('"' :: (mid ++ ['"'])).drop 1) = mid ++ ['"'] from rfl,
                List.dropLast_concat]
            have hwrap : quoteWrapped ('"' :: (mid ++ ['"'])) := by
              refine ⟨rfl, hformA, by simp, ?_⟩
              rw [hin]
              exact hmidq
            rw [if_neg houter, if_pos hwrap, hin]
          · subst hs
            have hform : ('"' :: (mid ++ '"' :: ['\n'])) = (('"' :: mid) ++ ['"']) ++ ['\n'] := by
              simp
            have houter : ((('"' :: mid) ++ ['"']) ++ ['\n']).getLast? = some '\n' :=
              List.getLast?_concat _
            have hin : ((('"' :: mid) ++ ['"']).drop 1).dropLast = mid := by
              rw [show ((('"' :: mid) ++ ['"']).drop 1) = mid ++ ['"'] from rfl,
                List.dropLast_concat]
            have hwrap : quoteWrapped (('"' :: mid) ++ ['"']) := by
              refine ⟨rfl, List.getLast?_concat _, by simp, ?_⟩
              rw [hin]
              exact hmidq
            rw [hform, if_pos houter, List.dropLast_concat, if_pos hwrap, hin]
        · rw [if_neg hs]
          have hsfne : suffix ≠ [] := fun h => hs (Or.inl h)
          by_cases hln : suffix.getLast? = some '\n'
          · obtain ⟨s0, hs0⟩ : ∃ s0, suffix = s0 ++ ['\n'] := by
              have hgl := List.dropLast_append_getLast hsfne
              have hlast : suffix.getLast hsfne = '\n' := by
                have h2 := List.getLast?_eq_getLast suffix hsfne
                rw [hln] at h2
                exact (Option.some.inj h2).symm
              refine ⟨suffix.dropLast, ?_⟩
              conv_lhs => rw [← hgl]
              rw [hlast]
            have hs0ne : s0 ≠ [] := by
              rintro rfl
              exact hs (Or.inr (by simpa using hs0))
            subst hs0
            have hform : ('"' :: (mid ++ '"' :: (s0 ++ ['\n']))) =
                ('"' :: (mid ++ '"' :: s0)) ++ ['\n'] := by
              simp
            have houter : (('"' :: (mid ++ '"' :: s0)) ++ ['\n']).getLast? = some '\n' :=
              List.getLast?_concat _
            have hnw : ¬ quoteWrapped ('"' :: (mid ++ '"' :: s0)) := by
              rintro ⟨-, -, -, hint⟩
              apply hint
              rw [show (('"' :: (mid ++ '"' :: s0)).drop 1) = mid ++ '"' :: s0 from rfl]
              rw [List.dropLast_append_of_ne_nil mid (by simp)]
              rw [List.dropLast_cons_of_ne_nil hs0ne]
              simp
            rw [hform, if_pos houter, List.dropLast_concat, if_neg hnw]
          · have houter : ¬ ('"' :: (mid ++ '"' :: suffix)).getLast? = some '\n' := by
              rw [show ('"' :: (mid ++ '"' :: suffix)) = ('"' :: mid) ++ '"' :: suffix by simp]
              rw [List.getLast?_append_of_ne_nil _ (by simp)]
              rcases suffix with _ | ⟨u, us⟩
              · exact absurd rfl hsfne
              · rw [List.getLast?_cons_cons]
                exact hln
            have hnw : ¬ quoteWrapped ('"' :: (mid ++ '"' :: suffix)) := by
              rintro ⟨-, -, -, hint⟩
              apply hint
              rw [show (('"' :: (mid ++ '"' :: suffix)).drop 1) = mid ++ '"' :: suffix from rfl]
              rw [List.dropLast_append_of_ne_nil mid (by simp)]
              rw [List.dropLast_cons_of_ne_nil hsfne]
              simp
            rw [if_neg houter, if_neg hnw]
    · have hstrip : strip_quotes ⟨c :: rest⟩ = ⟨c :: rest⟩ := by
        rw [strip_quotes_data, stripQuotesCore_cons, if_neg (fun h => hc h.1)]
      rw [hstrip, specStripAmended_data]
      by_cases hln : (c :: rest).getLast? = some '\n'
      · rw [if_pos hln]
        rcases rest with _ | ⟨r, rs⟩
        · simp [quoteWrapped]
        · rw [List.dropLast_cons_of_ne_nil (by simp)]
          rw [if_neg (fun hw => hc (Option.some.inj hw.1))]
      · rw [if_neg hln, if_neg (fun hw => hc (Option.some.inj hw.1))]

/-! ## Claim theorems, part 1 -/

/-- C1 (code_bug evaluation): is_active interpolates the active string
into a regex without escaping, so a dot inside an active name matches
any character: with activeSet containing unix.API, the entry unixZAPI
is marked active, although it neither equals unix.API nor starts with
unix.API followed by a dot.  The further conjuncts record that the
dot-boundary examples of the claim themselves hold. -/
theorem c1_is_active_dot_wildcard :
    is_active ["unix.API"] "unixZAPI" = true ∧
    is_active ["unix"] "unix" = true ∧
    is_active ["unix"] "unix.API" = true ∧
    is_active ["unix"] "unix.Malloc.Sizeof" = true ∧
    is_active ["unix"] "unixy" = false := by
  decide

/-- C2 (counterexample): the claim states that a token which is not
fully wrapped in double quotes passes through unchanged.  The last line
backslash quote a b c backslash quote backslash newline tokenizes to
the single token quote a b c quote newline, which does not end with a
double quote, yet reconstruction returns abc for it: the Python dollar
anchor of the strip_quotes regex matches before the trailing newline,
so both the quotes and the newline are removed. -/
theorem c2_counterexample :
    get_arguments_result ⟨["\\\"abc\\\"\\\n"], 0⟩ = .ok ["abc"] ∧
    shlexSplit "\\\"abc\\\"\\\n" = .ok ["\"abc\"\n"] ∧
    specStripClaim "\"abc\"\n" = "\"abc\"\n" ∧
    get_arguments_result ⟨["\\\"abc\\\"\\\n"], 0⟩ ≠
      (shlexSplit "\\\"abc\\\"\\\n").map (fun ts => ts.map specStripClaim) :=
  ⟨by decide, by decide, by decide, by decide⟩

/-- C2 (amended): on the success path, command reconstruction
tokenizes the last output line with the POSIX shlex rules and applies
the per-token rule of the amended claim: after setting aside a single
trailing newline, a token fully wrapped in double quotes with no
embedded double quote is replaced by its interior (the newline is
dropped as well), and every other token passes through unchanged; in
particular the quoted include token loses its quotes and the token
with a non-wrapping quote is unchanged. -/
theorem c2_amended (res : ProcessResult) (line : String)
    (hlast : res.outputLines.getLast? = some line)
    (hrc : res.returncode = 0)
    (hmark : pyStartsWith line "clang: error:" = false) :
    get_arguments_result res = (shlexSplit line).map (fun ts => ts.map specStripAmended) ∧
    strip_quotes "\"-I/usr/include\"" = "-I/usr/include" ∧
    strip_quotes "foo\"bar" = "foo\"bar" := by
  refine ⟨?_, by decide, by decide⟩
  have hfun : strip_quotes = specStripAmended := funext strip_quotes_eq_specStripAmended
  simp [get_arguments_result, hlast, hrc, hmark, hfun]

/-- C2 witness: the amended reconstruction equation at a concrete
result whose last line holds an escaped-quote token. -/
theorem c2_amended_witness :
    get_arguments_result ⟨["a \\\"b\\\""], 0⟩ =
      (shlexSplit "a \\\"b\\\"").map (fun ts => ts.map specStripAmended) :=
  (c2_amended ⟨["a \\\"b\\\""], 0⟩ "a \\\"b\\\"" (by decide) rfl (by decide)).1

/-- C3: command reconstruction fails with emptyOutput when there is no
output line at all, with executionFailed carrying the last line when
the exit status is non-zero, with compilerReportedError carrying the
last line when the exit status is zero but the line starts with the
clang error marker, and returns a token list only when none of these
conditions holds. -/
theorem c3_reconstruction_errors (res : ProcessResult) :
    (res.outputLines = [] → get_arguments_result res = .error .emptyOutput) ∧
    (∀ line, res.outputLines.getLast? = some line → res.returncode ≠ 0 →
      get_arguments_result res = .error (.executionFailed line)) ∧
    (∀ line, res.outputLines.getLast? = some line → res.returncode = 0 →
      pyStartsWith line "clang: error:" = true →
      get_arguments_result res = .error (.compilerReportedError line)) ∧
    (∀ toks, get_arguments_result res = .ok toks →
      res.outputLines ≠ [] ∧ res.returncode = 0 ∧
      ∀ line, res.outputLines.getLast? = some line →
        pyStartsWith line "clang: error:" = false) := by
  refine ⟨?_, ?_, ?_, ?_⟩
  · intro h
    simp [get_arguments_result, h]
  · intro line hlast hrc
    simp [get_arguments_result, hlast, hrc]
  · intro line hlast hrc hmark
    simp [get_arguments_result, hlast, hrc, hmark]
  · intro toks h
    cases hl : res.outputLines.getLast? with
    | none => simp [get_arguments_result, hl] at h
    | some line =>
      by_cases hrc : res.returncode = 0
      · by_cases hmark : pyStartsWith line "clang: error:" = true
        · simp [get_arguments_result, hl, hrc, hmark] at h
        · refine ⟨?_, hrc, ?_⟩
          · intro hnil
            rw [hnil] at hl
            cases hl
          · intro line' hl'
            cases hl'
            simpa using hmark
      · simp [get_arguments_result, hl, hrc] at h

/-- C3 witness: the error-marker case at a concrete result with exit
status zero and a clang error line. -/
theorem c3_reconstruction_errors_witness :
    get_arguments_result ⟨["clang: error: unknown argument"], 0⟩ =
      .error (.compilerReportedError "clang: error: unknown argument") :=
  (c3_reconstruction_errors ⟨["clang: error: unknown argument"], 0⟩).2.2.1
    "clang: error: unknown argument" rfl rfl (by decide)

/-- C6: the two-entry scenario: parsing the four split-form lines below
the CHECKERS: header and activating with the set containing core yields
exactly the two-entry catalog, with core.CallAndMessage active and
unix.API inactive. -/
theorem c6_scenario :
    buildCatalogFromHelp ["core"]
        ["CHECKERS:\n", "  core.CallAndMessage\n", "   Check for logical errors\n",
          "  unix.API\n", "   Check API usage\n"] =
      [("core.CallAndMessage", ("Check for logical errors", true)),
        ("unix.API", ("Check API usage", false))] := by
  decide

/-- C8: the catalog builder runs the compiler with argv consisting of
the compiler path, -cc1, one two-token load fragment per plugin in
plugin order, and -analyzer-checker-help; the two-token fragment is
distinct from the four-token fragment of the active probe; an absent
plugin list defaults to empty. -/
theorem c8_help_invocation (clang : String) (plugins? : Option (List String))
    (runner : Runner) :
    loadFragments2 (pluginsDefault plugins?) =
      (pluginsDefault plugins?).flatMap (fun x => ["-load", x]) ∧
    helpCmd clang (pluginsDefault plugins?) =
      [clang, "-cc1"] ++ (pluginsDefault plugins?).flatMap (fun x => ["-load", x]) ++
        ["-analyzer-checker-help"] ∧
    pluginsDefault none = [] ∧
    (∀ ps, pluginsDefault (some ps) = ps) ∧
    (∀ x : String, (["-load", x] : List String).length = 2 ∧
      (["-Xclang", "-load", "-Xclang", x] : List String).length = 4 ∧
      (["-load", x] : List String) ≠ ["-Xclang", "-load", "-Xclang", x]) ∧
    get_checkers runner clang plugins? =
      (_get_active_checkers runner clang (pluginsDefault plugins?)).bind
        (fun actives =>
          get_checkers_post actives (runner none (helpCmd clang (pluginsDefault plugins?)))) := by
  refine ⟨?_, ?_, rfl, fun ps => rfl, fun x => ⟨rfl, rfl, by simp⟩, rfl⟩
  · exact loadFragments2_eq_flatMap _
  · simp [helpCmd, loadFragments2_eq_flatMap]

theorem get_checkers_eq_post (runner : Runner) (clang : String)
    (plugins? : Option (List String)) (actives : List String)
    (hprobe : _get_active_checkers runner clang (pluginsDefault plugins?) = .ok actives) :
    get_checkers runner clang plugins? =
      get_checkers_post actives (runner none (helpCmd clang (pluginsDefault plugins?))) := by
  unfold get_checkers
  dsimp only
  rw [hprobe]
  rfl

/-- C4: given that the active probe succeeded (with active strings in
the domain the is_active embedding models), the catalog builder fails
with the catalog-unavailable error exactly when the help-text child
exits non-zero or the parsed catalog is empty, and otherwise returns
the non-empty catalog. -/
theorem c4_catalog_unavailable_iff (runner : Runner) (clang : String)
    (plugins? : Option (List String)) (actives : List String)
    (hprobe : _get_active_checkers runner clang (pluginsDefault plugins?) = .ok actives)
    (_hsafe : ∀ a ∈ actives, activeSafe a = true) :
    (get_checkers runner clang plugins? = .error .catalogUnavailable ↔
      ((runner none (helpCmd clang (pluginsDefault plugins?))).returncode ≠ 0 ∨
        buildCatalogFromHelp actives
          (runner none (helpCmd clang (pluginsDefault plugins?))).outputLines = [])) ∧
    (∀ cat, get_checkers runner clang plugins? = .ok cat →
      cat = buildCatalogFromHelp actives
          (runner none (helpCmd clang (pluginsDefault plugins?))).outputLines ∧ cat ≠ []) := by
  rw [get_checkers_eq_post runner clang plugins? actives hprobe]
  constructor
  · by_cases hrc : (runner none (helpCmd clang (pluginsDefault plugins?))).returncode = 0
    · by_cases hcat : buildCatalogFromHelp actives
          (runner none (helpCmd clang (pluginsDefault plugins?))).outputLines = []
      · simp [get_checkers_post, hrc, hcat]
      · simp [get_checkers_post, hrc, hcat]
    · simp [get_checkers_post, hrc]
  · intro cat hcat
    by_cases hcond : (runner none (helpCmd clang (pluginsDefault plugins?))).returncode = 0 ∧
        buildCatalogFromHelp actives
          (runner none (helpCmd clang (pluginsDefault plugins?))).outputLines ≠ []
    · simp only [get_checkers_post, if_pos hcond] at hcat
      cases hcat
      exact ⟨rfl, hcond.2⟩
    · simp only [get_checkers_post, if_neg hcond] at hcat
      cases hcat

/-- C4 witness: a runner whose probe yields no active checkers and
whose help text has no CHECKERS: header makes the catalog builder fail
with the catalog-unavailable error through the empty-catalog arm of the
equivalence. -/
theorem c4_catalog_unavailable_iff_witness :
    get_checkers (fun _ _ => ⟨["ok\n"], 0⟩) "clang" none = .error .catalogUnavailable :=
  (c4_catalog_unavailable_iff (fun _ _ => ⟨["ok\n"], 0⟩) "clang" none []
      (by decide) (by decide)).1.mpr (Or.inr (by decide))

theorem dropThroughHeader_eq_nil :
    ∀ stream : List String, (∀ l ∈ stream, pyStartsWith l "CHECKERS:" = false) →
      dropThroughHeader stream = [] := by
  intro stream
  induction stream with
  | nil => intro _; rfl
  | cons l ls ih =>
    intro h
    have h1 : pyStartsWith l "CHECKERS:" = false := h l (by simp)
    simp only [dropThroughHeader, h1, Bool.false_eq_true, if_false]
    exact ih (fun x hx => h x (by simp [hx]))

/-- C9: when no output line starts with CHECKERS:, the parser emits no
pairs (the whole stream is consumed searching for the header), so the
catalog build fails with the catalog-unavailable error even when the
help child exits with status zero. -/
theorem c9_no_header (stream : List String)
    (hnh : ∀ l ∈ stream, pyStartsWith l "CHECKERS:" = false) :
    parse_checkers stream = [] ∧
    ∀ (runner : Runner) (clang : String) (plugins? : Option (List String))
      (actives : List String),
      _get_active_checkers runner clang (pluginsDefault plugins?) = .ok actives →
      runner none (helpCmd clang (pluginsDefault plugins?)) = ⟨stream, 0⟩ →
      get_checkers runner clang plugins? = .error .catalogUnavailable := by
  have hparse : parse_checkers stream = [] := by
    unfold parse_checkers
    rw [dropThroughHeader_eq_nil stream hnh]
    rfl
  refine ⟨hparse, ?_⟩
  intro runner clang plugins? actives hprobe hrun
  rw [get_checkers_eq_post runner clang plugins? actives hprobe, hrun]
  simp [get_checkers_post, buildCatalogFromHelp, hparse, pyDictOf]

/-- C9 witness: a concrete headerless stream produced by a concrete
runner with exit status zero. -/
theorem c9_no_header_witness :
    get_checkers (fun _ _ => ⟨["hello\n"], 0⟩) "clang" none = .error .catalogUnavailable :=
  (c9_no_header ["hello\n"] (by decide)).2 (fun _ _ => ⟨["hello\n"], 0⟩) "clang" none []
    (by decide) rfl

theorem analyzerCheckerArg_of_append (v : String) (hnl : '\n' ∉ v.data) :
    analyzerCheckerArg ("-analyzer-checker=" ++ v) = some v := by
  have hp : pyStartsWith ("-analyzer-checker=" ++ v) "-analyzer-checker=" = true := by
    unfold pyStartsWith
    exact List.isPrefixOf_iff_prefix.mpr (List.prefix_append _ _)
  unfold analyzerCheckerArg
  rw [if_pos hp]
  have hdrop : ("-analyzer-checker=" ++ v).data.drop "-analyzer-checker=".data.length =
      v.data := by
    rw [show ("-analyzer-checker=" ++ v).data = "-analyzer-checker=".data ++ v.data from rfl]
    exact List.drop_left _ _
  rw [hdrop, if_neg hnl]

theorem analyzerCheckerArg_char (t v : String) (hnl : '\n' ∉ t.data) :
    analyzerCheckerArg t = some v ↔ t = "-analyzer-checker=" ++ v := by
  constructor
  · intro h
    by_cases hp : pyStartsWith t "-analyzer-checker=" = true
    · obtain ⟨suffix, hsuf⟩ :=
        List.isPrefixOf_iff_prefix.mp (by unfold pyStartsWith at hp; exact hp)

      have hdrop : t.data.drop "-analyzer-checker=".data.length = suffix := by
        rw [← hsuf]
        exact List.drop_left _ _
      have hnls : '\n' ∉ suffix := fun hm => hnl (hsuf ▸ List.mem_append_right _ hm)
      unfold analyzerCheckerArg at h
      rw [if_pos hp, hdrop, if_neg hnls] at h
      cases h
      refine String.ext ?_
      rw [← hsuf]
      rfl
    · unfold analyzerCheckerArg at h
      rw [if_neg hp] at h
      cases h
  · rintro rfl
    refine analyzerCheckerArg_of_append v (fun hm => hnl ?_)
    rw [show ("-analyzer-checker=" ++ v).data = "-analyzer-checker=".data ++ v.data from rfl]
    exact List.mem_append_right _ hm

theorem checkersForLanguage_ok_mem (runner : Runner) (clang : String) (load : List String)
    (language : String) (r : List String)
    (hr : checkersForLanguage runner clang load language = .ok r) (v : String) :
    v ∈ r ↔ ∃ toks, get_arguments runner "." (probeCmd clang load language) = .ok toks ∧
      ∃ t ∈ toks, analyzerCheckerArg t = some v := by
  cases hga : get_arguments runner "." (probeCmd clang load language) with
  | error e =>
    unfold checkersForLanguage at hr
    rw [hga] at hr
    cases hr
  | ok toks =>
    unfold checkersForLanguage at hr
    rw [hga] at hr
    simp only [Except.map] at hr
    cases hr
    constructor
    · intro hv
      exact ⟨toks, rfl, List.mem_filterMap.mp hv⟩
    · rintro ⟨toks', htoks', t, ht, hv⟩
      cases htoks'
      exact List.mem_filterMap.mpr ⟨t, ht, hv⟩

theorem probeAll_ok_mem (runner : Runner) (clang : String) (load : List String) :
    ∀ (langs : List String) (rs : List (List String)),
      probeAll runner clang load langs = .ok rs →
      ∀ v, v ∈ rs.flatten ↔ ∃ language ∈ langs, ∃ toks,
        get_arguments runner "." (probeCmd clang load language) = .ok toks ∧
        ∃ t ∈ toks, analyzerCheckerArg t = some v := by
  intro langs
  induction langs with
  | nil =>
    intro rs h v
    cases h
    simp
  | cons l ls ih =>
    intro rs h v
    cases hr : checkersForLanguage runner clang load l with
    | error e =>
      unfold probeAll at h
      rw [hr] at h
      cases h
    | ok r =>
      cases hrs : probeAll runner clang load ls with
      | error e =>
        unfold probeAll at h
        rw [hr, hrs] at h
        cases h
      | ok rs' =>
        unfold probeAll at h
        rw [hr, hrs] at h
        cases h
        rw [List.flatten_cons]
        simp only [List.mem_append]
        rw [checkersForLanguage_ok_mem runner clang load l r hr v, ih rs' hrs v]
        constructor
        · rintro (⟨toks, h1, h2⟩ | ⟨language, hl, hrest⟩)
          · exact ⟨l, List.mem_cons_self l ls, toks, h1, h2⟩
          · exact ⟨language, List.mem_cons_of_mem l hl, hrest⟩
        · rintro ⟨language, hl, hrest⟩
          rcases List.mem_cons.mp hl with rfl | hl'
          · exact Or.inl hrest
          · exact Or.inr ⟨language, hl', hrest⟩

/-- C7: the active probe builds, for each of the four languages in the
fixed order, the invocation of compilerPath, --analyze, the four-token
load fragments in plugin order, -x, the language and -, reconstructs it
in directory ., extracts the values captured by the checker-flag
pattern, and returns the union over the languages (set semantics given
by the membership equivalence); a newline-free token is captured by the
pattern exactly when it is the literal marker followed by the value. -/
theorem c7_probe (runner : Runner) (clang : String) (plugins : List String) :
    _get_active_checkers runner clang plugins = probeActiveSpec runner clang plugins ∧
    loadFragments4 plugins = plugins.flatMap (fun x => ["-Xclang", "-load", "-Xclang", x]) ∧
    (∀ acts, _get_active_checkers runner clang plugins = .ok acts →
      ∀ v, v ∈ acts ↔ ∃ language ∈ probeLanguages, ∃ toks,
        get_arguments runner "." (probeCmd clang (loadFragments4 plugins) language) = .ok toks ∧
        ∃ t ∈ toks, analyzerCheckerArg t = some v) ∧
    (∀ t v, '\n' ∉ t.data →
      (analyzerCheckerArg t = some v ↔ t = "-analyzer-checker=" ++ v)) := by
  have hload := loadFragments4_eq_flatMap plugins
  have hlang : ∀ language, checkersForLanguage runner clang (loadFragments4 plugins) language =
      specProbeLanguage runner clang plugins language := by
    intro language
    unfold checkersForLanguage specProbeLanguage probeCmd
    rw [hload]
  have hall : ∀ langs, probeAll runner clang (loadFragments4 plugins) langs =
      specProbeAll runner clang plugins langs := by
    intro langs
    induction langs with
    | nil => rfl
    | cons l ls ih =>
      unfold probeAll specProbeAll
      rw [hlang l, ih]
  refine ⟨?_, hload, ?_, fun t v hnl => analyzerCheckerArg_char t v hnl⟩
  · unfold _get_active_checkers probeActiveSpec
    rw [hall probeLanguages]
    rfl
  · intro acts hok v
    unfold _get_active_checkers at hok
    cases hpa : probeAll runner clang (loadFragments4 plugins) probeLanguages with
    | error e =>
      rw [hpa] at hok
      cases hok
    | ok rs =>
      rw [hpa] at hok
      simp only [Except.map] at hok
      cases hok
      exact probeAll_ok_mem runner clang (loadFragments4 plugins) probeLanguages rs hpa v

/-- C7 witness: the membership equivalence of the probe at a concrete
runner that prints one analyzer-checker token per reconstruction. -/
theorem c7_probe_witness :
    ("core" ∈ ["core", "core", "core", "core"]) ↔ ∃ language ∈ probeLanguages, ∃ toks,
      get_arguments (fun _ _ => ⟨["-analyzer-checker=core x\n"], 0⟩) "."
          (probeCmd "clang" (loadFragments4 []) language) = .ok toks ∧
      ∃ t ∈ toks, analyzerCheckerArg t = some "core" :=
  (c7_probe (fun _ _ => ⟨["-analyzer-checker=core x\n"], 0⟩) "clang" []).2.2.1
    ["core", "core", "core", "core"] (by decide) "core"

theorem takeWhile_eq_self_of_all (p : α → Bool) (l : List α)
    (h : ∀ x ∈ l, p x = true) : l.takeWhile p = l := by
  have h2 := takeWhile_append_of_all p ([] : List α) h
  simpa using h2

theorem dropWhile_eq_self_of_head (p : α → Bool) (l : List α)
    (h : ∀ c, l.head? = some c → p c = false) : l.dropWhile p = l := by
  rcases l with _ | ⟨a, t⟩
  · rfl
  · rw [List.dropWhile_cons, if_neg (by simp [h a rfl])]

theorem pyRstripL_concat_ws (l : List Char) (c : Char) (h : isPySpace c = true) :
    pyRstripL (l ++ [c]) = pyRstripL l := by
  unfold pyRstripL
  rw [List.reverse_append]
  simp [List.dropWhile_cons, h]

theorem pyRstripL_concat_nonws (l : List Char) (c : Char) (h : isPySpace c = false) :
    pyRstripL (l ++ [c]) = l ++ [c] := by
  unfold pyRstripL
  rw [List.reverse_append]
  simp [List.dropWhile_cons, h]

theorem pyRstripL_self_of_getLast (l : List Char) (c : Char)
    (h : l.getLast? = some c) (hc : isPySpace c = false) : pyRstripL l = l := by
  have hne : l ≠ [] := by
    rintro rfl
    cases h
  have hgl : l.getLast hne = c := by
    have h2 := List.getLast?_eq_getLast l hne
    rw [h] at h2
    exact (Option.some.inj h2).symm
  have hl : l = l.dropLast ++ [c] := by
    conv_lhs => rw [← List.dropLast_append_getLast hne]
    rw [hgl]
  calc pyRstripL l = pyRstripL (l.dropLast ++ [c]) := by rw [← hl]
    _ = l.dropLast ++ [c] := pyRstripL_concat_nonws _ _ hc
    _ = l := hl.symm

theorem wfName_ne (n : String) (h : wfName n = true) : n.data ≠ [] := by
  intro he
  rw [wfName, he] at h
  simp at h

theorem wfName_nonws (n : String) (h : wfName n = true) :
    ∀ x ∈ n.data, isPySpace x = false := by
  rw [wfName, Bool.and_eq_true] at h
  intro x hx
  have h2 := List.all_eq_true.mp h.2 x hx
  simpa using h2

theorem wfName_getLast (n : String) (h : wfName n = true) :
    ∃ c, n.data.getLast? = some c ∧ isPySpace c = false := by
  have hne := wfName_ne n h
  exact ⟨n.data.getLast hne, List.getLast?_eq_getLast _ hne,
    wfName_nonws n h _ (List.getLast_mem hne)⟩

theorem wfName_head (n : String) (h : wfName n = true) :
    ∀ c, n.data.head? = some c → isPySpace c = false := by
  intro c hc
  exact wfName_nonws n h c (List.mem_of_mem_head? hc)

theorem wfDesc_ne (d : String) (h : wfDesc d = true) : d.data ≠ [] := by
  intro he
  rw [wfDesc, he] at h
  simp at h

theorem wfDesc_no_newline (d : String) (h : wfDesc d = true) :
    ∀ x ∈ d.data, (x ≠ '\n') = True := by
  rw [wfDesc] at h
  simp only [Bool.and_eq_true] at h
  intro x hx
  have h2 := List.all_eq_true.mp h.1.1.2 x hx
  simp only [eq_iff_iff, iff_true]
  simpa using h2

theorem wfDesc_head (d : String) (h : wfDesc d = true) :
    ∀ c, d.data.head? = some c → isPySpace c = false := by
  rw [wfDesc] at h
  simp only [Bool.and_eq_true] at h
  intro c hc
  have h2 := h.1.2
  rw [hc] at h2
  simpa using h2

theorem wfDesc_getLast (d : String) (h : wfDesc d = true) :
    ∃ c, d.data.getLast? = some c ∧ isPySpace c = false := by
  have hne := wfDesc_ne d h
  refine ⟨d.data.getLast hne, List.getLast?_eq_getLast _ hne, ?_⟩
  rw [wfDesc] at h
  simp only [Bool.and_eq_true] at h
  have h2 := h.2
  rw [List.getLast?_eq_getLast _ hne] at h2
  simpa using h2

theorem matchBareName_eval (line : String) (a b : Char) (rest : List Char)
    (h : pyRstripL line.data = a :: b :: rest) :
    matchBareName line =
      (isPySpace a && isPySpace b && !rest.isEmpty && rest.all (fun c => !isPySpace c)) := by
  unfold matchBareName
  rw [show (pyRstrip line).data = pyRstripL line.data from rfl, h]

theorem entryLineMatch_eval (line : String) (a b : Char) (rest : List Char)
    (h : pyRstripL line.data = a :: b :: rest) :
    entryLineMatch line =
      (if isPySpace a && isPySpace b then
        some ((⟨rest.takeWhile (fun c => !isPySpace c)⟩ : String),
          (⟨((rest.dropWhile (fun c => !isPySpace c)).dropWhile isPySpace).takeWhile
            (fun c => c ≠ '\n')⟩ : String))
      else none) := by
  unfold entryLineMatch
  rw [show (pyRstrip line).data = pyRstripL line.data from rfl, h]

theorem matchTwoWsNonWs_eval (line : String) (a b c : Char) (rest : List Char)
    (h : line.data = a :: b :: c :: rest) :
    matchTwoWsNonWs line = (isPySpace a && isPySpace b && !isPySpace c) := by
  unfold matchTwoWsNonWs
  rw [h]

theorem rstrip_name_line (n : String) (hn : wfName n = true) :
    pyRstripL (("  " ++ n ++ "\n").data) = [' ', ' '] ++ n.data := by
  obtain ⟨c, hgl, hc⟩ := wfName_getLast n hn
  have h1 : ("  " ++ n ++ "\n").data = ([' ', ' '] ++ n.data) ++ ['\n'] := rfl
  rw [h1, pyRstripL_concat_ws _ _ (by decide)]
  exact pyRstripL_self_of_getLast _ c
    (by rw [List.getLast?_append_of_ne_nil _ (wfName_ne n hn)]; exact hgl) hc

theorem strip_name_line (n : String) (hn : wfName n = true) :
    pyStrip ("  " ++ n ++ "\n") = n := by
  obtain ⟨c, hgl, hc⟩ := wfName_getLast n hn
  have h1 : ("  " ++ n ++ "\n").data = [' ', ' '] ++ (n.data ++ ['\n']) := by
    rw [show ("  " ++ n ++ "\n").data = ([' ', ' '] ++ n.data) ++ ['\n'] from rfl]
    simp
  unfold pyStrip
  rw [h1, dropWhile_append_of_all _ _ (by decide)]
  rw [dropWhile_eq_self_of_head _ _ (fun c0 hc0 => wfName_head n hn c0
    (by rwa [List.head?_append_of_ne_nil _ (wfName_ne n hn)] at hc0))]
  rw [pyRstripL_concat_ws _ _ (by decide), pyRstripL_self_of_getLast _ c hgl hc]

theorem bare_name_line_true (n : String) (hn : wfName n = true) :
    matchBareName ("  " ++ n ++ "\n") = true := by
  rw [matchBareName_eval _ ' ' ' ' n.data (rstrip_name_line n hn)]
  have hne : n.data.isEmpty = false := by
    rcases hd : n.data with _ | _
    · exact absurd hd (wfName_ne n hn)
    · rfl
  have hall : n.data.all (fun c => !isPySpace c) = true :=
    List.all_eq_true.mpr (fun x hx => by simp [wfName_nonws n hn x hx])
  simp only [hne, hall]
  decide

theorem rstrip_inline_line (n d : String) (_hn : wfName n = true) (hd : wfDesc d = true) :
    pyRstripL (("  " ++ n ++ " " ++ d ++ "\n").data) =
      ' ' :: ' ' :: (n.data ++ ' ' :: d.data) := by
  obtain ⟨c, hgl, hc⟩ := wfDesc_getLast d hd
  have h1 : ("  " ++ n ++ " " ++ d ++ "\n").data =
      ((([' ', ' '] ++ n.data) ++ [' ']) ++ d.data) ++ ['\n'] := rfl
  rw [h1, pyRstripL_concat_ws _ _ (by decide)]
  rw [pyRstripL_self_of_getLast _ c
    (by rw [List.getLast?_append_of_ne_nil _ (wfDesc_ne d hd)]; exact hgl) hc]
  simp

theorem inline_line_not_bare (n d : String) (hn : wfName n = true) (hd : wfDesc d = true) :
    matchBareName ("  " ++ n ++ " " ++ d ++ "\n") = false := by
  rw [matchBareName_eval _ ' ' ' ' (n.data ++ ' ' :: d.data) (rstrip_inline_line n d hn hd)]
  have hall : (n.data ++ ' ' :: d.data).all (fun c => !isPySpace c) = false := by
    refine eq_false_of_ne_true (fun hall => ?_)
    have h2 := List.all_eq_true.mp hall ' ' (List.mem_append_right _ (List.mem_cons_self _ _))
    simp [isPySpace] at h2
  simp [hall]

theorem inline_line_entry (n d : String) (hn : wfName n = true) (hd : wfDesc d = true) :
    entryLineMatch ("  " ++ n ++ " " ++ d ++ "\n") = some (n, d) := by
  rw [entryLineMatch_eval _ ' ' ' ' (n.data ++ ' ' :: d.data) (rstrip_inline_line n d hn hd)]
  rw [if_pos (by decide)]
  have hnws : ∀ x ∈ n.data, (fun c => !isPySpace c) x = true := by
    intro x hx
    simp [wfName_nonws n hn x hx]
  have htake : (n.data ++ ' ' :: d.data).takeWhile (fun c => !isPySpace c) = n.data := by
    rw [takeWhile_append_of_all _ _ hnws, List.takeWhile_cons,
      if_neg (by simp [isPySpace])]
    simp
  have hdropn : (n.data ++ ' ' :: d.data).dropWhile (fun c => !isPySpace c) =
      ' ' :: d.data := by
    rw [dropWhile_append_of_all _ _ hnws, List.dropWhile_cons,
      if_neg (by simp [isPySpace])]
  have hdropw : (' ' :: d.data).dropWhile isPySpace = d.data := by
    rw [List.dropWhile_cons, if_pos (by decide)]
    exact dropWhile_eq_self_of_head _ _ (wfDesc_head d hd)
  have hvalue : d.data.takeWhile (fun c => c ≠ '\n') = d.data := by
    refine takeWhile_eq_self_of_all _ _ (fun x hx => ?_)
    have h2 := wfDesc_no_newline d hd x hx
    simp only [eq_iff_iff, iff_true] at h2
    simpa using h2
  rw [htake, hdropn, hdropw, hvalue]

theorem desc_line_not_twows (d : String) :
    matchTwoWsNonWs ("   " ++ d ++ "\n") = false := by
  have h1 : ("   " ++ d ++ "\n").data = ' ' :: ' ' :: ' ' :: (d.data ++ ['\n']) := by
    rw [show ("   " ++ d ++ "\n").data = ([' ', ' ', ' '] ++ d.data) ++ ['\n'] from rfl]
    simp
  rw [matchTwoWsNonWs_eval _ ' ' ' ' ' ' (d.data ++ ['\n']) h1]
  decide

theorem strip_desc_line (d : String) (hd : wfDesc d = true) :
    pyStrip ("   " ++ d ++ "\n") = d := by
  obtain ⟨c, hgl, hc⟩ := wfDesc_getLast d hd
  have h1 : ("   " ++ d ++ "\n").data = [' ', ' ', ' '] ++ (d.data ++ ['\n']) := by
    rw [show ("   " ++ d ++ "\n").data = ([' ', ' ', ' '] ++ d.data) ++ ['\n'] from rfl]
    simp
  unfold pyStrip
  rw [h1, dropWhile_append_of_all _ _ (by decide)]
  rw [dropWhile_eq_self_of_head _ _ (fun c0 hc0 => wfDesc_head d hd c0
    (by rwa [List.head?_append_of_ne_nil _ (wfDesc_ne d hd)] at hc0))]
  rw [pyRstripL_concat_ws _ _ (by decide), pyRstripL_self_of_getLast _ c hgl hc]

theorem parseEntries_cons_none (line : String) (rest : List String) :
    parseEntries (line :: rest) none =
      if matchBareName line then parseEntries rest (some (pyStrip line))
      else
        match entryLineMatch line with
        | some kv => kv :: parseEntries rest none
        | none => parseEntries rest none :=
  rfl

theorem parseEntries_cons_some (line : String) (rest : List String) (st : String) :
    parseEntries (line :: rest) (some st) =
      if !matchTwoWsNonWs line then
        (st, pyStrip line) :: parseEntries rest none
      else if matchBareName line then parseEntries rest (some (pyStrip line))
      else
        match entryLineMatch line with
        | some kv => kv :: parseEntries rest (some st)
        | none => parseEntries rest (some st) :=
  rfl

theorem parseEntries_inline_step (n d : String) (rest : List String)
    (hn : wfName n = true) (hd : wfDesc d = true) :
    parseEntries (("  " ++ n ++ " " ++ d ++ "\n") :: rest) none =
      (n, d) :: parseEntries rest none := by
  rw [parseEntries_cons_none]
  rw [inline_line_not_bare n d hn hd]
  simp only [Bool.false_eq_true, if_false]
  rw [inline_line_entry n d hn hd]

theorem parseEntries_split_step (n d : String) (rest : List String)
    (hn : wfName n = true) (hd : wfDesc d = true) :
    parseEntries (("  " ++ n ++ "\n") :: ("   " ++ d ++ "\n") :: rest) none =
      (n, d) :: parseEntries rest none := by
  rw [parseEntries_cons_none]
  rw [bare_name_line_true n hn]
  simp only [if_true]
  rw [strip_name_line n hn, parseEntries_cons_some]
  rw [desc_line_not_twows d]
  simp only [Bool.not_false, if_true]
  rw [strip_desc_line d hd]

theorem parseEntries_renders (es : List EntryForm)
    (hwf : ∀ e ∈ es, wfEntry e = true) :
    parseEntries (es.flatMap renderEntry) none =
      es.map (fun e => (entryName e, entryDesc e)) := by
  induction es with
  | nil => rfl
  | cons e tl ih =>
    have he := hwf e (List.mem_cons_self e tl)
    have htl := ih (fun x hx => hwf x (List.mem_cons_of_mem e hx))
    cases e with
    | inl n d =>
      rw [wfEntry, Bool.and_eq_true] at he
      rw [show ((EntryForm.inl n d :: tl).flatMap renderEntry) =
        ("  " ++ n ++ " " ++ d ++ "\n") :: tl.flatMap renderEntry from rfl]
      rw [parseEntries_inline_step n d _ he.1 he.2, htl]
      rfl
    | split n d =>
      rw [wfEntry, Bool.and_eq_true] at he
      rw [show ((EntryForm.split n d :: tl).flatMap renderEntry) =
        ("  " ++ n ++ "\n") :: ("   " ++ d ++ "\n") :: tl.flatMap renderEntry from rfl]
      rw [parseEntries_split_step n d _ he.1 he.2, htl]
      rfl

/-- C5: for every well-formed help text made of the CHECKERS: header
followed by the renderings of N distinct entries, each a two-space
indented name either inline with its description or bare with the
description on the following line, the parser yields exactly the N
name-description pairs of the input, in order, independent of which
entries used the split form. -/
theorem c5_parse_wellformed (es : List EntryForm)
    (hwf : ∀ e ∈ es, wfEntry e = true)
    (_hdist : (es.map entryName).Pairwise (· ≠ ·)) :
    parse_checkers ("CHECKERS:\n" :: es.flatMap renderEntry) =
      es.map (fun e => (entryName e, entryDesc e)) := by
  unfold parse_checkers
  rw [show dropThroughHeader ("CHECKERS:\n" :: es.flatMap renderEntry) =
    es.flatMap renderEntry from by
      unfold dropThroughHeader
      rw [if_pos (by decide)]]
  exact parseEntries_renders es hwf

/-- C5 witness: a concrete two-entry help text mixing the inline and
the split forms. -/
theorem c5_parse_wellformed_witness :
    parse_checkers ("CHECKERS:\n" ::
        ([EntryForm.inl "alpha.core.A" "first checker",
          EntryForm.split "deadcode.DeadStores" "dead store checker"].flatMap
          renderEntry)) =
      [("alpha.core.A", "first checker"), ("deadcode.DeadStores", "dead store checker")] :=
  c5_parse_wellformed
    [EntryForm.inl "alpha.core.A" "first checker",
      EntryForm.split "deadcode.DeadStores" "dead store checker"]
    (by decide) (by decide)

/-- C10: get_arguments leaves the caller argv unchanged (line 51 copies
the list before the insert at line 52 mutates it), and the command
executed is the input with the single token -### inserted at index 1,
all other tokens preserved in order. -/
theorem c10_frame (runner : Runner) (cwd : String) (command : List String) :
    (buildExecArgv command).2 = command ∧
    (buildExecArgv command).1 = command.take 1 ++ "-###" :: command.drop 1 ∧
    get_arguments runner cwd command =
      get_arguments_result (runner (some cwd) (command.take 1 ++ "-###" :: command.drop 1)) :=
  ⟨rfl, rfl, rfl⟩

end ScanBuild
